import Mathlib

/-!
Verification development for the dibo-gems repository.

The frontend service layer (src/frontend/src/services/api.ts), the gem card
(GemCard.tsx) and the application shell (App.tsx) are embedded shallowly:
JavaScript strings are `List Char`, HTTP calls are parameterised by the
response they would receive, and every function below is translated from the
corresponding source function.  The backend lock registry is not part of the
sources; it is modelled from the specification where a claim needs it, and
each such definition is marked `Modelled from the spec:`.
-/

namespace DiboGems

/-! ## Key normalisation (api.ts, toSnakeCase, lines 62-67)

JavaScript: str.toLowerCase().replace(apostrophe-regex, empty)
  .replace(run-of-hyphen-or-whitespace-regex, underscore).
The whitespace class of the regex is modelled on its ASCII fragment, which is
the only part exercised by gem names. -/

def isSep (c : Char) : Bool :=
  c == '-' || c == ' ' || c == '\t' || c == '\n' || c == '\r' || c == '\x0b' || c == '\x0c'

/-- Replace every maximal run of separator characters by a single underscore.
The Boolean flag records whether the previous character was part of a run
whose underscore has already been emitted. -/
def foldSepsAux : Bool → List Char → List Char
  | _, [] => []
  | inRun, c :: rest =>
    if isSep c then
      if inRun then foldSepsAux true rest else '_' :: foldSepsAux true rest
    else
      c :: foldSepsAux false rest

def toSnakeCase (l : List Char) : List Char :=
  foldSepsAux false ((l.map Char.toLower).filter (fun c => c != '\x27'))

/-- JavaScript String.prototype.split with separator hyphen. -/
def splitOnHyphen : List Char → List (List Char)
  | [] => [[]]
  | c :: rest =>
    match splitOnHyphen rest with
    | [] => [[]]
    | g :: gs => if c == '-' then [] :: g :: gs else (c :: g) :: gs

/-- JavaScript Array.prototype.join with separator hyphen. -/
def joinHyphen : List (List Char) → List Char
  | [] => []
  | [g] => g
  | g :: gs => g ++ '-' :: joinHyphen gs

/-- The snakePath computed by acquireLock/releaseLock (api.ts lines 100-103 and
120-123): split the gem path on hyphens, keep the first component (the star
prefix) verbatim, re-join the rest with hyphens and normalise it. -/
def lockKeyOfGemPath (gemPath : List Char) : List Char :=
  match splitOnHyphen gemPath with
  | [] => []
  | p :: rest => p ++ '-' :: toSnakeCase (joinHyphen rest)

def gemsBase : List Char := ("/gems/").data

def lockSuffix : List Char := ("/lock").data

/-- URL of the POST issued by acquireLock (api.ts line 105). -/
def acquireLockPath (gemPath : List Char) : List Char :=
  gemsBase ++ lockKeyOfGemPath gemPath ++ lockSuffix

/-- URL of the DELETE issued by releaseLock (api.ts line 125). -/
def releaseLockPath (gemPath : List Char) : List Char :=
  gemsBase ++ lockKeyOfGemPath gemPath ++ lockSuffix

def natChars (n : Nat) : List Char := (Nat.repr n).data

/-- The argument updateGem passes to acquireLock (api.ts line 138): the
template literal of stars, a hyphen and the raw display name. -/
def updateGemLockArg (stars : Nat) (name : List Char) : List Char :=
  natChars stars ++ '-' :: name

/-- URL of the PUT issued by updateGem (api.ts line 141): the raw stars-name
path, with no snake-case conversion applied. -/
def updateGemPutPath (stars : Nat) (name : List Char) : List Char :=
  gemsBase ++ natChars stars ++ '-' :: name

/-! ## Frontend error flow (api.ts)

An HTTP interaction is modelled by the response the axios call would produce;
a thrown JavaScript error is a value of `JsError`. -/

inductive HttpResp (α : Type) where
  | ok (data : α)
  | httpError (status : Nat) (detail : String)
  | netError
deriving DecidableEq

inductive JsError where
  | jsErr (message : String)
  | axiosResp (status : Nat) (detail : String)
  | axiosNet
deriving DecidableEq

def JsError.message : JsError → String
  | .jsErr m => m
  | .axiosResp st _ => ("Request failed with status code ") ++ Nat.repr st
  | .axiosNet => ("Network Error")

/-- acquireLock (api.ts lines 97-115): on HTTP 423 it rethrows a plain Error
carrying the server's detail message; any other failure is rethrown as the
axios error it received. -/
def acquireLockJs (resp : HttpResp String) : Except JsError String :=
  match resp with
  | .ok d => .ok d
  | .httpError st detail =>
      if st = 423 then .error (.jsErr detail) else .error (.axiosResp st detail)
  | .netError => .error .axiosNet

/-- The catch block of updateGem (api.ts lines 144-150): an axios error whose
response status is 423 is replaced by a plain Error carrying the detail;
everything else is rethrown unchanged. -/
def catch423 (e : JsError) : JsError :=
  match e with
  | .axiosResp st detail => if st = 423 then .jsErr detail else .axiosResp st detail
  | other => other

structure UpdateGemOutcome where
  putIssued : Bool
  result : Except JsError String

/-- updateGem (api.ts lines 134-151): first awaits acquireLock, then issues
the PUT; any error escaping either await goes through the catch block.
`putIssued` records whether the PUT request was made. -/
def updateGem (acqResp putResp : HttpResp String) : UpdateGemOutcome :=
  match acquireLockJs acqResp with
  | .error e => ⟨false, .error (catch423 e)⟩
  | .ok _ =>
    match putResp with
    | .ok g => ⟨true, .ok g⟩
    | .httpError st d => ⟨true, .error (catch423 (.axiosResp st d))⟩
    | .netError => ⟨true, .error (catch423 .axiosNet)⟩

/-! ## GemCard (GemCard.tsx) -/

structure ToastMsg where
  title : String
  description : String
deriving DecidableEq

structure HandleEditTrace where
  acquireAttempted : Bool
  editorOpened : Bool
  toast : Option ToastMsg
deriving DecidableEq

/-- handleEdit (GemCard.tsx lines 96-122): an unauthenticated user gets the
sign-in toast and returns before any lock call; otherwise acquireLock is
awaited and onEdit runs only when it resolved; a thrown error produces the
locked toast with the error's message. -/
def handleEdit (authed : Bool) (acqResp : HttpResp String) : HandleEditTrace :=
  if authed then
    match acquireLockJs acqResp with
    | .ok _ => ⟨true, true, none⟩
    | .error e => ⟨true, false, some ⟨("Gem is Locked"), e.message⟩⟩
  else
    ⟨false, false, some ⟨("Authentication Required"), ("Please sign in to edit gems")⟩⟩

/-- getTimeRemaining (GemCard.tsx lines 125-129).  Timestamps are epoch
milliseconds; Math.floor of the quotient is integer floor division. -/
def getTimeRemaining (expiresAt now : Int) : Int :=
  max 0 ((expiresAt - now).fdiv 60000)

/-- The minutes string produced by getTimeRemaining, including the plural
suffix chosen by the code. -/
def timeRemainingLabel (expiresAt now : Int) : String :=
  (getTimeRemaining expiresAt now).repr ++ (" min")
    ++ (if getTimeRemaining expiresAt now = 1 then ("") else ("s"))

structure LockInfo where
  user_email : String
  user_name : String
  locked_at : Int
  expires_at : Int
deriving DecidableEq

/-- The tag label GemCard renders for a locked gem (GemCard.tsx lines
154-161): the holder's display name followed by the remaining time. -/
def gemCardLockLabel (li : LockInfo) (now : Int) : String :=
  ("Editing: ") ++ li.user_name ++ (" (") ++ timeRemainingLabel li.expires_at now ++ (")")

/-- getLocks (api.ts lines 186-196): any failure of the GET is caught and an
empty object returned.  The lock map is modelled as an association list. -/
def getLocks (resp : HttpResp (List (String × LockInfo))) : List (String × LockInfo) :=
  match resp with
  | .ok m => m
  | .httpError _ _ => []
  | .netError => []

/-! ## App shell (App.tsx) -/

inductive AppAction where
  | callReleaseLock (gemPath : String)
  | invalidateQueries (queryKey : String)
  | consoleError
  | closeModal
  | clearSelectedGem
  | showToast (title : String)
deriving DecidableEq

structure GemRef where
  stars : Nat
  name : String
deriving DecidableEq

def gemPathOf (g : GemRef) : String :=
  Nat.repr g.stars ++ ("-") ++ g.name

/-- The onSuccess handler of updateGemMutation (App.tsx lines 66-84), as the
sequence of side effects it performs: when a gem is selected it awaits
releaseLock first (and invalidates the lock query only when that succeeded),
then invalidates the gem query, closes the modal, clears the selection and
shows the success toast. -/
def updateGemOnSuccessActions (selectedGem : Option GemRef) (releaseOk : Bool) :
    List AppAction :=
  (match selectedGem with
   | some g =>
      AppAction.callReleaseLock (gemPathOf g) ::
        (if releaseOk then [AppAction.invalidateQueries ("locks")]
         else [AppAction.consoleError])
   | none => [])
  ++ [AppAction.invalidateQueries ("gems"), AppAction.closeModal,
      AppAction.clearSelectedGem, AppAction.showToast ("Gem Updated")]

/-- The onError handler of updateGemMutation (App.tsx lines 85-93): only a
toast. -/
def updateGemOnErrorActions : List AppAction :=
  [AppAction.showToast ("Error Updating Gem")]

/-- handleCloseEditor (App.tsx lines 125-128): clear the selection and close
the modal, nothing else. -/
def handleCloseEditorActions : List AppAction :=
  [AppAction.clearSelectedGem, AppAction.closeModal]

/-- handleSaveGem (App.tsx lines 115-123) fires the mutation only when both a
selected gem and an updated gem are present. -/
def handleSaveGemFires (selectedGem updatedGem : Option GemRef) : Bool :=
  selectedGem.isSome && updatedGem.isSome

/-! ## Lock Store

Modelled from the spec: the backend lock registry (the FastAPI service is not
among the sources; sections 3-4.1 of the design document define it).  A store
maps an item key to at most one lock record; times are seconds. -/

/-- Modelled from the spec: fixed lock duration, default 30 minutes. -/
def LOCK_DURATION : Nat := 30 * 60

/-- Modelled from the spec: a lock record (section 3). -/
structure LockRecord where
  holder_id : String
  holder_display_name : String
  acquired_at : Nat
  expires_at : Nat
deriving DecidableEq

abbrev LockStore := String → Option LockRecord

def storeSet (s : LockStore) (key : String) (r : Option LockRecord) : LockStore :=
  fun k => if k = key then r else s k

/-- Modelled from the spec: a record whose expires_at has passed is treated as
absent (section 3); non-expired means expires_at is in the future. -/
def lockExpired (r : LockRecord) (now : Nat) : Bool :=
  decide (r.expires_at ≤ now)

inductive AcquireResult where
  | ok (r : LockRecord)
  | conflict (holder_display_name : String) (expires_at : Nat)
deriving DecidableEq

/-- Modelled from the spec: acquire (section 4.1).  No lock or an expired lock
gives a fresh record; a live lock held by the requester refreshes expires_at;
a live lock held by someone else fails with a conflict carrying the holder's
display name and expiry. -/
def acquire (s : LockStore) (key requester_id requester_name : String) (now : Nat) :
    AcquireResult × LockStore :=
  match s key with
  | none =>
      let r : LockRecord := ⟨requester_id, requester_name, now, now + LOCK_DURATION⟩
      (AcquireResult.ok r, storeSet s key (some r))
  | some old =>
      if lockExpired old now then
        let r : LockRecord := ⟨requester_id, requester_name, now, now + LOCK_DURATION⟩
        (AcquireResult.ok r, storeSet s key (some r))
      else if old.holder_id = requester_id then
        let r : LockRecord := { old with expires_at := now + LOCK_DURATION }
        (AcquireResult.ok r, storeSet s key (some r))
      else
        (AcquireResult.conflict old.holder_display_name old.expires_at, s)

inductive ReleaseResult where
  | ok
  | notLockOwner
deriving DecidableEq

/-- Modelled from the spec: release (section 4.1).  Absent or expired locks
release as a no-op; the holder's release removes the record; anyone else gets
NotLockOwner. -/
def release (s : LockStore) (key requester_id : String) (now : Nat) :
    ReleaseResult × LockStore :=
  match s key with
  | none => (ReleaseResult.ok, s)
  | some r =>
      if lockExpired r now then (ReleaseResult.ok, s)
      else if r.holder_id = requester_id then (ReleaseResult.ok, storeSet s key none)
      else (ReleaseResult.notLockOwner, s)

/-- Modelled from the spec: query_all (section 4.1) filters expired entries
from the snapshot. -/
def query_all (s : LockStore) (now : Nat) : String → Option LockRecord :=
  fun k =>
    match s k with
    | some r => if lockExpired r now then none else some r
    | none => none

/-- Modelled from the spec: is_locked_by_other (section 4.1). -/
def is_locked_by_other (s : LockStore) (key requester_id : String) (now : Nat) : Bool :=
  match s key with
  | some r => !lockExpired r now && r.holder_id != requester_id
  | none => false

/-! ## Helper lemmas -/

theorem mem_foldSepsAux : ∀ (b : Bool) (l : List Char) (c : Char),
    c ∈ foldSepsAux b l → c = '_' ∨ (c ∈ l ∧ isSep c = false) := by
  intro b l
  induction l generalizing b with
  | nil => intro c h; simp [foldSepsAux] at h
  | cons a rest ih =>
    intro c h
    by_cases ha : isSep a = true
    · rw [foldSepsAux, if_pos ha] at h
      cases b with
      | true =>
        simp only [if_true] at h
        rcases ih true c h with h1 | ⟨h2, h3⟩
        · exact Or.inl h1
        · exact Or.inr ⟨List.mem_cons_of_mem _ h2, h3⟩
      | false =>
        simp only [Bool.false_eq_true, if_false, List.mem_cons] at h
        rcases h with h | h
        · exact Or.inl h
        · rcases ih true c h with h1 | ⟨h2, h3⟩
          · exact Or.inl h1
          · exact Or.inr ⟨List.mem_cons_of_mem _ h2, h3⟩
    · rw [foldSepsAux, if_neg ha] at h
      rcases List.mem_cons.mp h with h | h
      · subst h
        exact Or.inr ⟨List.mem_cons_self _ _, Bool.not_eq_true _ ▸ ha⟩
      · rcases ih false c h with h1 | ⟨h2, h3⟩
        · exact Or.inl h1
        · exact Or.inr ⟨List.mem_cons_of_mem _ h2, h3⟩

theorem foldSepsAux_sep_run_true (xs ys : List Char) (h : ∀ a ∈ xs, isSep a = true) :
    foldSepsAux true (xs ++ ys) = foldSepsAux true ys := by
  induction xs with
  | nil => rfl
  | cons a as ih =>
    rw [List.cons_append, foldSepsAux, if_pos (h a (List.mem_cons_self _ _)), if_pos rfl]
    exact ih (fun b hb => h b (List.mem_cons_of_mem _ hb))

theorem foldSepsAux_sep_run_false (xs ys : List Char) (h : ∀ a ∈ xs, isSep a = true)
    (hne : xs ≠ []) :
    foldSepsAux false (xs ++ ys) = '_' :: foldSepsAux true ys := by
  cases xs with
  | nil => exact absurd rfl hne
  | cons a as =>
    rw [List.cons_append, foldSepsAux, if_pos (h a (List.mem_cons_self _ _))]
    simp only [Bool.false_eq_true, if_false]
    rw [foldSepsAux_sep_run_true as ys (fun b hb => h b (List.mem_cons_of_mem _ hb))]

theorem foldSepsAux_cons_nonsep (b : Bool) (c : Char) (ys : List Char)
    (h : isSep c = false) :
    foldSepsAux b (c :: ys) = c :: foldSepsAux false ys := by
  rw [foldSepsAux, if_neg (by simp [h])]

theorem splitOnHyphen_ne_nil (l : List Char) : splitOnHyphen l ≠ [] := by
  cases l with
  | nil => simp [splitOnHyphen]
  | cons c rest =>
    rw [splitOnHyphen]
    cases h : splitOnHyphen rest with
    | nil => simp
    | cons g gs =>
      by_cases hc : c == '-'
      · simp [hc]
      · simp [hc]

theorem splitOnHyphen_no_hyphen (l : List Char) (h : ('-') ∉ l) : splitOnHyphen l = [l] := by
  induction l with
  | nil => rfl
  | cons c rest ih =>
    have hc : ¬ (c = '-') := fun hh => h (hh ▸ List.mem_cons_self _ _)
    have hrest : ('-') ∉ rest := fun hh => h (List.mem_cons_of_mem _ hh)
    rw [splitOnHyphen, ih hrest]
    simp [hc]

theorem splitOnHyphen_append (p n : List Char) (hp : ('-') ∉ p) :
    splitOnHyphen (p ++ '-' :: n) = p :: splitOnHyphen n := by
  induction p with
  | nil =>
    rw [List.nil_append, splitOnHyphen]
    cases h : splitOnHyphen n with
    | nil => exact absurd h (splitOnHyphen_ne_nil n)
    | cons g gs => simp
  | cons c cs ih =>
    have hc : ¬ (c = '-') := fun hh => hp (hh ▸ List.mem_cons_self _ _)
    have hcs : ('-') ∉ cs := fun hh => hp (List.mem_cons_of_mem _ hh)
    rw [List.cons_append, splitOnHyphen, ih hcs]
    simp [hc]

theorem joinHyphen_splitOnHyphen (l : List Char) : joinHyphen (splitOnHyphen l) = l := by
  induction l with
  | nil => rfl
  | cons c rest ih =>
    rw [splitOnHyphen]
    cases h : splitOnHyphen rest with
    | nil => exact absurd h (splitOnHyphen_ne_nil rest)
    | cons g gs =>
      rw [h] at ih
      by_cases hc : c = '-'
      · subst hc
        simp only [beq_self_eq_true, if_true]
        cases gs with
        | nil => simpa [joinHyphen] using ih
        | cons g2 gs2 => simpa [joinHyphen] using ih
      · simp only [beq_iff_eq, hc, if_false]
        cases gs with
        | nil => simp only [joinHyphen] at ih ⊢; rw [ih]
        | cons g2 gs2 =>
          simp only [joinHyphen] at ih ⊢
          rw [List.cons_append, ih]

theorem lockKeyOfGemPath_append (p n : List Char) (hp : ('-') ∉ p) :
    lockKeyOfGemPath (p ++ '-' :: n) = p ++ '-' :: toSnakeCase n := by
  rw [lockKeyOfGemPath, splitOnHyphen_append p n hp]
  have : joinHyphen (splitOnHyphen n) = n := joinHyphen_splitOnHyphen n
  simp only [this]

theorem toLower_isUpper_eq_false (c : Char) : (Char.toLower c).isUpper = false := by
  rw [Char.toLower]
  split
  next h =>
    obtain ⟨h1, h2⟩ := h
    generalize hg : Char.toNat c = n at h1 h2
    interval_cases n <;> decide
  next h =>
    by_contra hc
    rw [Bool.not_eq_false] at hc
    simp only [Char.isUpper, Bool.and_eq_true, decide_eq_true_eq] at hc
    obtain ⟨hc1, hc2⟩ := hc
    apply h
    constructor
    · exact UInt32.le_toNat_of_le (by decide) hc1
    · exact UInt32.toNat_le_of_le (by decide) hc2

theorem mem_toSnakeCase (l : List Char) (c : Char) (hc : c ∈ toSnakeCase l) :
    c.isUpper = false ∧ c ≠ '\x27' ∧ isSep c = false := by
  rcases mem_foldSepsAux false _ c hc with h | ⟨h2, h3⟩
  · subst h; refine ⟨by decide, by decide, by decide⟩
  · rw [List.mem_filter] at h2
    obtain ⟨hmem, hpred⟩ := h2
    rcases List.mem_map.mp hmem with ⟨a, _, ha⟩
    refine ⟨ha ▸ toLower_isUpper_eq_false a, ?_, h3⟩
    intro hceq
    rw [hceq] at hpred
    simp at hpred

theorem acquire_ok_inv (s : LockStore) (key rid rname : String) (now : Nat) (r : LockRecord)
    (h : (acquire s key rid rname now).1 = AcquireResult.ok r) :
    r.holder_id = rid ∧ r.expires_at = now + LOCK_DURATION ∧
      (acquire s key rid rname now).2 key = some r := by
  cases hk : s key with
  | none =>
    simp only [acquire, hk, AcquireResult.ok.injEq] at h
    subst h
    refine ⟨rfl, rfl, ?_⟩
    simp [acquire, hk, storeSet]
  | some old =>
    simp only [acquire, hk] at h ⊢
    split_ifs at h ⊢ with h1 h2
    · simp only [AcquireResult.ok.injEq] at h
      subst h
      exact ⟨rfl, rfl, by simp [storeSet]⟩
    · simp only [AcquireResult.ok.injEq] at h
      subst h
      exact ⟨h2, rfl, by simp [storeSet]⟩

theorem acquire_conflict_of_other (s : LockStore) (key rid rname : String) (now : Nat)
    (old : LockRecord) (hk : s key = some old) (hexp : lockExpired old now = false)
    (hother : old.holder_id ≠ rid) :
    acquire s key rid rname now
      = (AcquireResult.conflict old.holder_display_name old.expires_at, s) := by
  simp only [acquire, hk, hexp, Bool.false_eq_true, if_false, hother, if_neg hother]

theorem acquire_ok_same_holder (s : LockStore) (key rid rname : String) (now : Nat)
    (old : LockRecord) (hk : s key = some old) (hsame : old.holder_id = rid) :
    ∃ r : LockRecord, (acquire s key rid rname now).1 = AcquireResult.ok r ∧
      r.holder_id = rid ∧ r.expires_at = now + LOCK_DURATION := by
  simp only [acquire, hk]
  by_cases hexp : lockExpired old now = true
  · rw [if_pos hexp]
    exact ⟨_, rfl, rfl, rfl⟩
  · rw [if_neg hexp, if_pos hsame]
    exact ⟨_, rfl, hsame, rfl⟩

/-! ## Claim theorems -/

/-- C1: updateGem awaits acquireLock before the PUT; a 423 on acquisition
makes it throw an error carrying the server's detail and the PUT is never
issued; the PUT is issued exactly when re-acquisition succeeded, and a 423 at
write time also surfaces as the detail-carrying error. -/
theorem updateGem_reacquires_before_put :
    (∀ (detail : String) (putResp : HttpResp String),
        updateGem (HttpResp.httpError 423 detail) putResp
          = ⟨false, Except.error (JsError.jsErr detail)⟩)
    ∧ (∀ acqResp putResp : HttpResp String,
        (updateGem acqResp putResp).putIssued = true
          ↔ ∃ d, acquireLockJs acqResp = Except.ok d)
    ∧ (∀ d detail : String,
        updateGem (HttpResp.ok d) (HttpResp.httpError 423 detail)
          = ⟨true, Except.error (JsError.jsErr detail)⟩) := by
  refine ⟨?_, ?_, ?_⟩
  · intro detail putResp
    simp [updateGem, acquireLockJs, catch423]
  · intro acqResp putResp
    cases acqResp with
    | ok d => cases putResp <;> simp [updateGem, acquireLockJs]
    | httpError st detail =>
      by_cases h : st = 423 <;> simp [updateGem, acquireLockJs, h]
    | netError => simp [updateGem, acquireLockJs]
  · intro d detail
    simp [updateGem, acquireLockJs, catch423]

/-- C4 counterexample: for the 2-star gem named Battleguard's Vigor, the PUT
path used by updateGem differs from the path built from the normalised key
used by the lock endpoints, so the update caller does not apply the
normalisation to the item key it writes to. -/
theorem updateGem_put_path_not_normalised :
    updateGemPutPath 2 (("Battleguard\x27s Vigor").data)
      ≠ gemsBase ++ lockKeyOfGemPath (updateGemLockArg 2 (("Battleguard\x27s Vigor").data)) := by
  decide

/-- C4 (amended): toSnakeCase lowercases, removes apostrophes and folds every
run of spaces and hyphens to one underscore; the lock wire key is the tier
component followed by a hyphen and the normalised name; acquireLock and
releaseLock build identical paths from it, and updateGem's lock acquisition
goes through the same path builder, but its item PUT uses the raw
stars-name path. -/
theorem key_normalisation_amended
    (p name g l xs ys : List Char) (c c' : Char) (b : Bool) (st : Nat)
    (hp : ('-') ∉ p) (hc : c ∈ toSnakeCase l)
    (hxs : ∀ a ∈ xs, isSep a = true) (hne : xs ≠ []) (hc' : isSep c' = false) :
    (c.isUpper = false ∧ c ≠ '\x27' ∧ isSep c = false)
    ∧ foldSepsAux false (xs ++ ys) = '_' :: foldSepsAux true ys
    ∧ foldSepsAux true (xs ++ ys) = foldSepsAux true ys
    ∧ foldSepsAux b (c' :: ys) = c' :: foldSepsAux false ys
    ∧ lockKeyOfGemPath (p ++ '-' :: name) = p ++ '-' :: toSnakeCase name
    ∧ releaseLockPath g = acquireLockPath g
    ∧ acquireLockPath (updateGemLockArg st name)
        = gemsBase ++ lockKeyOfGemPath (updateGemLockArg st name) ++ lockSuffix
    ∧ updateGemPutPath st name = gemsBase ++ natChars st ++ '-' :: name := by
  refine ⟨mem_toSnakeCase l c hc,
    foldSepsAux_sep_run_false xs ys hxs hne,
    foldSepsAux_sep_run_true xs ys hxs,
    foldSepsAux_cons_nonsep b c' ys hc',
    lockKeyOfGemPath_append p name hp,
    rfl, rfl, rfl⟩

/-- C5 counterexample: the code does not map the 2-star Battleguard's Vigor to
the key 2-battleguard_s_vigor. -/
theorem battleguards_vigor_key_cex :
    lockKeyOfGemPath (("2-Battleguard\x27s Vigor").data)
      ≠ ("2-battleguard_s_vigor").data := by
  decide

/-- C5 (amended): the apostrophe is deleted outright, so the 2-star
Battleguard's Vigor maps to the wire key 2-battleguards_vigor. -/
theorem battleguards_vigor_key :
    lockKeyOfGemPath (("2-Battleguard\x27s Vigor").data)
      = ("2-battleguards_vigor").data := by
  decide

/-- C6: unauthenticated users are turned away before any acquisition; the
editor opens exactly when the user is authenticated and acquireLock resolved;
a 423 conflict shows the server's message and never opens the editor. -/
theorem handleEdit_gates_editor :
    (∀ resp : HttpResp String,
        handleEdit false resp
          = ⟨false, false,
             some ⟨("Authentication Required"), ("Please sign in to edit gems")⟩⟩)
    ∧ (∀ d : String,
        handleEdit true (HttpResp.httpError 423 d)
          = ⟨true, false, some ⟨("Gem is Locked"), d⟩⟩)
    ∧ (∀ d : String, handleEdit true (HttpResp.ok d) = ⟨true, true, none⟩)
    ∧ (∀ (authed : Bool) (resp : HttpResp String),
        (handleEdit authed resp).editorOpened = true
          ↔ authed = true ∧ ∃ d, acquireLockJs resp = Except.ok d) := by
  refine ⟨fun resp => rfl, ?_, fun d => rfl, ?_⟩
  · intro d
    simp [handleEdit, acquireLockJs, JsError.message]
  · intro authed resp
    cases authed with
    | false => simp [handleEdit]
    | true =>
      cases resp with
      | ok d => simp [handleEdit, acquireLockJs]
      | httpError st detail =>
        by_cases h : st = 423 <;> simp [handleEdit, acquireLockJs, h]
      | netError => simp [handleEdit, acquireLockJs]

/-- C9: every failure of the lock query resolves to the empty map, making an
error indistinguishable from the absence of locks. -/
theorem getLocks_swallows_errors :
    (∀ (st : Nat) (d : String), getLocks (HttpResp.httpError st d) = [])
    ∧ getLocks HttpResp.netError = []
    ∧ (∀ (st : Nat) (d : String),
        getLocks (HttpResp.httpError st d) = getLocks (HttpResp.ok []))
    ∧ getLocks HttpResp.netError = getLocks (HttpResp.ok []) :=
  ⟨fun _ _ => rfl, rfl, fun _ _ => rfl, rfl⟩

/-- C2 (lock store modelled from the spec): if an acquire for a key succeeded,
a second acquire by a different identity while the winner's expires_at is in
the future fails with a conflict referencing the winner, leaves the registry
unchanged, and the winner's record is the single non-expired lock the query
reports for the key. -/
theorem acquire_mutual_exclusion (s : LockStore) (key idA nameA idB nameB : String)
    (t t' : Nat) (r : LockRecord)
    (hA : (acquire s key idA nameA t).1 = AcquireResult.ok r)
    (hAB : idB ≠ idA) (hlive : t' < r.expires_at) :
    acquire ((acquire s key idA nameA t).2) key idB nameB t'
        = (AcquireResult.conflict r.holder_display_name r.expires_at,
           (acquire s key idA nameA t).2)
    ∧ r.holder_id = idA
    ∧ r.expires_at = t + LOCK_DURATION
    ∧ query_all ((acquire s key idA nameA t).2) t' key = some r := by
  obtain ⟨hid, hexp, hstore⟩ := acquire_ok_inv s key idA nameA t r hA
  have hnotexp : lockExpired r t' = false := by
    simp only [lockExpired, decide_eq_false_iff_not]
    omega
  refine ⟨?_, hid, hexp, ?_⟩
  · exact acquire_conflict_of_other _ key idB nameB t' r hstore hnotexp
      (by rw [hid]; exact fun hh => hAB hh.symm)
  · simp [query_all, hstore, hnotexp]

/-- Witness for C2 at a concrete registry: Alice acquires a fresh key at time
0, Bob's acquire at time 300 conflicts with Alice's record. -/
theorem acquire_mutual_exclusion_witness :
    acquire ((acquire (fun _ => none) ("2-battleguards_vigor")
                ("alice@x.com") ("Alice") 0).2)
        ("2-battleguards_vigor") ("bob@x.com") ("Bob") 300
      = (AcquireResult.conflict ("Alice") (0 + LOCK_DURATION),
         (acquire (fun _ => none) ("2-battleguards_vigor")
            ("alice@x.com") ("Alice") 0).2) :=
  (acquire_mutual_exclusion (fun _ => none) ("2-battleguards_vigor")
      ("alice@x.com") ("Alice") ("bob@x.com") ("Bob") 0 300
      ⟨("alice@x.com"), ("Alice"), 0, 0 + LOCK_DURATION⟩
      (by decide) (by decide) (by decide)).1

/-- C3 (lock store modelled from the spec): after a successful acquire by an
identity, any further acquire by the same identity succeeds and refreshes
expires_at to the new now plus LOCK_DURATION. -/
theorem acquire_idempotent_reentry (s : LockStore) (key idA nameA nameA2 : String)
    (t1 t2 : Nat) (r : LockRecord)
    (hA : (acquire s key idA nameA t1).1 = AcquireResult.ok r) :
    ∃ r' : LockRecord,
      (acquire ((acquire s key idA nameA t1).2) key idA nameA2 t2).1
          = AcquireResult.ok r'
      ∧ r'.holder_id = idA ∧ r'.expires_at = t2 + LOCK_DURATION := by
  obtain ⟨hid, hexp, hstore⟩ := acquire_ok_inv s key idA nameA t1 r hA
  exact acquire_ok_same_holder _ key idA nameA2 t2 r hstore hid

/-- Witness for C3: Alice re-acquires at time 600 and gets a refreshed
record. -/
theorem acquire_idempotent_reentry_witness :
    ∃ r' : LockRecord,
      (acquire ((acquire (fun _ => none) ("k") ("alice@x.com") ("Alice") 0).2)
          ("k") ("alice@x.com") ("Alice") 600).1 = AcquireResult.ok r'
      ∧ r'.holder_id = ("alice@x.com") ∧ r'.expires_at = 600 + LOCK_DURATION :=
  acquire_idempotent_reentry (fun _ => none) ("k") ("alice@x.com") ("Alice")
    ("Alice") 0 600 ⟨("alice@x.com"), ("Alice"), 0, 0 + LOCK_DURATION⟩ (by decide)

/-- C7: in the success path of the update mutation the very first side effect
is the releaseLock call for the edited gem's path, and closing the modal and
clearing the selection only come later; the mutation does not fire at all
without a selected gem. -/
theorem release_before_close_on_success (g : GemRef) (releaseOk : Bool)
    (updated : Option GemRef) :
    (∃ rest, updateGemOnSuccessActions (some g) releaseOk
        = AppAction.callReleaseLock (gemPathOf g) :: rest
      ∧ AppAction.closeModal ∈ rest ∧ AppAction.clearSelectedGem ∈ rest)
    ∧ handleSaveGemFires none updated = false := by
  constructor
  · cases releaseOk with
    | true => exact ⟨_, rfl, by simp, by simp⟩
    | false => exact ⟨_, rfl, by simp, by simp⟩
  · rfl

/-- C8: an acquire blocked by another identity's live lock reports that
record's display name and expires_at, and the client's remaining-minutes
computation is the floor of the difference clamped below at zero, rendered
next to the holder's name. -/
theorem conflict_payload_and_time_remaining (s : LockStore) (key idB nameB : String)
    (now : Nat) (old : LockRecord)
    (hk : s key = some old) (hlive : lockExpired old now = false)
    (hother : old.holder_id ≠ idB) :
    (acquire s key idB nameB now).1
        = AcquireResult.conflict old.holder_display_name old.expires_at
    ∧ (∀ e n : Int, 0 ≤ getTimeRemaining e n)
    ∧ (∀ e n : Int, getTimeRemaining e n = max 0 ((e - n).fdiv 60000))
    ∧ (∀ e n : Int, 0 ≤ e - n → getTimeRemaining e n = (e - n).fdiv 60000)
    ∧ (∀ (li : LockInfo) (n : Int), gemCardLockLabel li n
        = ("Editing: ") ++ li.user_name ++ (" (")
            ++ timeRemainingLabel li.expires_at n ++ (")")) := by
  refine ⟨?_, ?_, fun _ _ => rfl, ?_, fun _ _ => rfl⟩
  · rw [acquire_conflict_of_other s key idB nameB now old hk hlive hother]
  · intro e n
    exact le_max_left 0 _
  · intro e n h
    have h2 : 0 ≤ (e - n).fdiv 60000 := Int.fdiv_nonneg h (by norm_num)
    simp [getTimeRemaining, max_eq_right h2]

/-- Witness for C8: Bob is blocked by Alice's live lock and the conflict
carries her name and expiry. -/
theorem conflict_payload_and_time_remaining_witness :
    (acquire (fun k => if k = ("k") then some ⟨("alice@x.com"), ("Alice"), 0, 1800⟩ else none)
        ("k") ("bob@x.com") ("Bob") 300).1
      = AcquireResult.conflict ("Alice") 1800 :=
  (conflict_payload_and_time_remaining _ ("k") ("bob@x.com") ("Bob") 300
      ⟨("alice@x.com"), ("Alice"), 0, 1800⟩ (by decide) (by decide) (by decide)).1

/-- C10: closing the editor performs no lock release, the error path performs
none either, only the success path of the update mutation does; and an
unreleased live record stays visible in the registry query. -/
theorem close_without_save_keeps_lock (p : String) (g : GemRef) (s : LockStore)
    (key : String) (r : LockRecord) (t : Nat)
    (hk : s key = some r) (hlive : lockExpired r t = false) :
    AppAction.callReleaseLock p ∉ handleCloseEditorActions
    ∧ AppAction.callReleaseLock p ∉ updateGemOnErrorActions
    ∧ AppAction.callReleaseLock (gemPathOf g) ∈ updateGemOnSuccessActions (some g) true
    ∧ query_all s t key = some r := by
  refine ⟨by simp [handleCloseEditorActions], by simp [updateGemOnErrorActions],
    by simp [updateGemOnSuccessActions], ?_⟩
  simp [query_all, hk, hlive]

/-- Witness for C10: a concrete registry with Alice's live lock. -/
theorem close_without_save_keeps_lock_witness :
    AppAction.callReleaseLock ("2-x") ∉ handleCloseEditorActions
    ∧ AppAction.callReleaseLock ("2-x") ∉ updateGemOnErrorActions
    ∧ AppAction.callReleaseLock (gemPathOf ⟨2, ("x")⟩)
        ∈ updateGemOnSuccessActions (some ⟨2, ("x")⟩) true
    ∧ query_all (fun k => if k = ("k") then some ⟨("alice@x.com"), ("Alice"), 0, 1800⟩ else none)
        300 ("k") = some ⟨("alice@x.com"), ("Alice"), 0, 1800⟩ :=
  close_without_save_keeps_lock ("2-x") ⟨2, ("x")⟩ _ ("k")
    ⟨("alice@x.com"), ("Alice"), 0, 1800⟩ 300 (by decide) (by decide)

/-- Witness for C4 (amended) at concrete inputs: tier 2, the gem name
Battleguard's Vigor, a separator run of a space and a hyphen. -/
theorem key_normalisation_amended_witness :
    lockKeyOfGemPath (("2").data ++ '-' :: ("Battleguard\x27s Vigor").data)
      = ("2").data ++ '-' :: toSnakeCase (("Battleguard\x27s Vigor").data) :=
  (key_normalisation_amended (("2").data) (("Battleguard\x27s Vigor").data)
    (("2-Bottled-Hope").data) (("A b").data) ([' ', '-']) (['a']) 'a' 'x' false 2
    (by decide) (by decide) (by decide) (by decide) (by decide)).2.2.2.2.1

end DiboGems
